import Mathlib

/-!
Verification of the MP2 integral-transformation module against its design
specification.  The two Python files `mp2_canonical_slow.py` and
`mp2_canonical_fast.py` are shallowly embedded: numpy arrays become total
functions into ℚ (exact real arithmetic stands in for float64), Python
accumulation loops become left folds over `List.range` in source loop order,
and Python `range(a, b)` over possibly-negative bounds becomes `pyRange` on ℤ.
-/

namespace MP2

/-- Rank-4 tensor of rationals: the embedding of an N×N×N×N numpy array.
Entries outside the shape are never read by the embedded operations, whose
outputs are guarded to 0 there (mirroring `np.zeros(g2e_ao.shape)` init). -/
abbrev T4 : Type := ℕ → ℕ → ℕ → ℕ → ℚ

/-- Rank-2 matrix of rationals: the embedding of an N×N numpy array. -/
abbrev M2 : Type := ℕ → ℕ → ℚ

/-- Python `range(a, b)` as the list `[a, a+1, …, b-1]` of integers; empty
when `b ≤ a`, including all negative-argument cases. -/
def pyRange (a b : ℤ) : List ℤ :=
  (List.range (b - a).toNat).map (fun k : ℕ => a + (k : ℤ))

namespace Slow

/-- Embedding of `transform_integrals_slow` (mp2_canonical_slow.py, lines
60–82).  The eight nested loops accumulate, for each output index tuple
`(p,q,r,s)` with all indices below `num_bf`, the product
`coeff_mat[p,mu]·coeff_mat[q,nu]·g2e_ao[mu,nu,rho,sigma]·coeff_mat[r,rho]·coeff_mat[s,sigma]`
over `mu,nu,rho,sigma < num_bf`, in source loop order; entries outside the
loop ranges keep their `np.zeros` initial value 0. -/
def transform_integrals_slow (num_bf : ℕ) (g2e_ao : T4) (coeff_mat : M2) : T4 :=
  fun p q r s =>
    if p < num_bf ∧ q < num_bf ∧ r < num_bf ∧ s < num_bf then
      (List.range num_bf).foldl (fun a mu =>
        (List.range num_bf).foldl (fun a nu =>
          (List.range num_bf).foldl (fun a rho =>
            (List.range num_bf).foldl (fun a sigma =>
              a + coeff_mat p mu * coeff_mat q nu *
                  g2e_ao mu nu rho sigma *
                  coeff_mat r rho * coeff_mat s sigma) a) a) a) 0
    else 0

/-- Embedding of the first stage of `transform_integrals`
(mp2_canonical_slow.py, lines 102–108): the array `g` after the first loop
nest, `g[mu,nu,rho,s] += g2e_ao[mu,nu,rho,sigma] * coeff_mat[rho, s]`
accumulated over `sigma < num_bf`.  Note the source multiplies
`coeff_mat[rho, s]`, not `coeff_mat[sigma, s]`. -/
def transform_integrals_g1 (num_bf : ℕ) (g2e_ao : T4) (coeff_mat : M2) : T4 :=
  fun mu nu rho s =>
    if mu < num_bf ∧ nu < num_bf ∧ rho < num_bf ∧ s < num_bf then
      (List.range num_bf).foldl (fun a sigma =>
        a + g2e_ao mu nu rho sigma * coeff_mat rho s) 0
    else 0

/-- Embedding of the second stage of `transform_integrals` (lines 111–117):
`gmo[mu,nu,r,s] += g[mu,nu,rho,s] * coeff_mat[rho, r]` over `rho < num_bf`. -/
def transform_integrals_g2 (num_bf : ℕ) (g2e_ao : T4) (coeff_mat : M2) : T4 :=
  fun mu nu r s =>
    if mu < num_bf ∧ nu < num_bf ∧ r < num_bf ∧ s < num_bf then
      (List.range num_bf).foldl (fun a rho =>
        a + transform_integrals_g1 num_bf g2e_ao coeff_mat mu nu rho s *
            coeff_mat rho r) 0
    else 0

/-- Embedding of the third stage of `transform_integrals` (lines 119–125):
`g[mu,q,r,s] += gmo[mu,nu,r,s] * coeff_mat[nu, q]` over `nu < num_bf`. -/
def transform_integrals_g3 (num_bf : ℕ) (g2e_ao : T4) (coeff_mat : M2) : T4 :=
  fun mu q r s =>
    if mu < num_bf ∧ q < num_bf ∧ r < num_bf ∧ s < num_bf then
      (List.range num_bf).foldl (fun a nu =>
        a + transform_integrals_g2 num_bf g2e_ao coeff_mat mu nu r s *
            coeff_mat nu q) 0
    else 0

/-- Embedding of `transform_integrals` (mp2_canonical_slow.py, lines 98–135),
the factored O(N^5) strategy: the fourth stage
`gmo[p,q,r,s] += g[mu,q,r,s] * coeff_mat[mu, p]` over `mu < num_bf`, applied
to the third-stage array. -/
def transform_integrals (num_bf : ℕ) (g2e_ao : T4) (coeff_mat : M2) : T4 :=
  fun p q r s =>
    if p < num_bf ∧ q < num_bf ∧ r < num_bf ∧ s < num_bf then
      (List.range num_bf).foldl (fun a mu =>
        a + transform_integrals_g3 num_bf g2e_ao coeff_mat mu q r s *
            coeff_mat mu p) 0
    else 0

/-- Embedding of `transform_integrals_einsum` (mp2_canonical_slow.py, lines
87–93).  The call `np.einsum('PQRS, Pp, Qq, Rr, Ss->pqrs', g2e_ao,
coeff_mat, coeff_mat, coeff_mat, coeff_mat)` contracts the MODULE-LEVEL
global `g2e_ao` (passed here explicitly as `g2e_ao_global`); the function
parameter `ge2_ao` is never read by the body.  The einsum primitive is
modelled as the mathematical contraction it computes. -/
def transform_integrals_einsum (num_bf : ℕ) (g2e_ao_global : T4) (ge2_ao : T4)
    (coeff_mat : M2) : T4 :=
  fun p q r s =>
    if p < num_bf ∧ q < num_bf ∧ r < num_bf ∧ s < num_bf then
      ∑ P in Finset.range num_bf, ∑ Q in Finset.range num_bf,
        ∑ R in Finset.range num_bf, ∑ S in Finset.range num_bf,
          g2e_ao_global P Q R S * coeff_mat P p * coeff_mat Q q *
            coeff_mat R r * coeff_mat S s
    else 0

end Slow

namespace Fast

/-- Embedding of `transform_integrals_einsum` (mp2_canonical_fast.py, lines
60–69).  All four einsum lines read the MODULE-LEVEL global `g2e_ao`
(passed here explicitly as `g2e_ao_global`), not the previous line's result
and not the unused parameter `ge2_ao`; so lines 64–66 are dead assignments
and the returned value is line 67 alone:
`np.einsum('pqrS, Ss->pqrs', g2e_ao, coeff_mat)`, a single-axis
contraction of the global tensor. -/
def transform_integrals_einsum (num_bf : ℕ) (g2e_ao_global : T4) (ge2_ao : T4)
    (coeff_mat : M2) : T4 :=
  fun p q r s =>
    if p < num_bf ∧ q < num_bf ∧ r < num_bf ∧ s < num_bf then
      ∑ S in Finset.range num_bf, g2e_ao_global p q r S * coeff_mat S s
    else 0

end Fast

/-- Embedding of `compute_mp2_energy`, defined identically in
mp2_canonical_slow.py (lines 147–168) and mp2_canonical_fast.py (lines
80–102) up to timing diagnostics.  The four nested Python loops
`for i in range(nocc): for j in range(nocc): for a in range(nocc, num_bf):
for b in range(nocc, num_bf)` accumulate into `E` (initial 0.0) the term
`g2e_mo[i,a,j,b]*(2*g2e_mo[i,a,j,b] - g2e_mo[i,b,j,a]) /
(orb_e[i] + orb_e[j] - orb_e[a] - orb_e[b])`.  Indices are ℤ so that the
Python semantics of `range` at negative or out-of-range `nocc` is kept
exactly.  The parameter `ehf` is only printed by the source, never used in
the returned value. -/
def compute_mp2_energy (num_bf nocc : ℤ) (g2e_mo : ℤ → ℤ → ℤ → ℤ → ℚ)
    (orb_e : ℤ → ℚ) (ehf : ℚ) : ℚ :=
  (pyRange 0 nocc).foldl (fun E i =>
    (pyRange 0 nocc).foldl (fun E j =>
      (pyRange nocc num_bf).foldl (fun E a =>
        (pyRange nocc num_bf).foldl (fun E b =>
          E + g2e_mo i a j b * (2 * g2e_mo i a j b - g2e_mo i b j a) /
              (orb_e i + orb_e j - orb_e a - orb_e b)) E) E) E) 0

/-- Shape-carrying embedding of an N×N numpy array, used to model numpy's
index bounds checking for the error-condition analysis. -/
structure Arr2 where
  dim : ℕ
  val : ℕ → ℕ → ℚ

/-- Shape-carrying embedding of an N×N×N×N numpy array. -/
structure Arr4 where
  dim : ℕ
  val : ℕ → ℕ → ℕ → ℕ → ℚ

/-- Checked element access: `none` models the numpy IndexError raised when an
index reaches past the array's axis length. -/
def Arr2.get (A : Arr2) (i j : ℕ) : Option ℚ :=
  if i < A.dim ∧ j < A.dim then some (A.val i j) else none

/-- Checked element access for a rank-4 array. -/
def Arr4.get (A : Arr4) (i j k l : ℕ) : Option ℚ :=
  if i < A.dim ∧ j < A.dim ∧ k < A.dim ∧ l < A.dim then some (A.val i j k l)
  else none

namespace Slow

/-- Bounds-checked execution of the inner four loops of
`transform_integrals_slow` for one output element `(p,q,r,s)`: each numpy
read (`coeff_mat[p,mu]`, `coeff_mat[q,nu]`, `g2e_ao[mu,nu,rho,sigma]`,
`coeff_mat[r,rho]`, `coeff_mat[s,sigma]`) is a checked `get` in source
order, and the first out-of-bounds access aborts the run, exactly as the
Python IndexError does.  The write to `g2e_mo[p,q,r,s]` is in bounds
whenever `num_bf ≤ g2e_ao.dim`, since `g2e_mo` is allocated with
`g2e_ao.shape`. -/
def transform_integrals_slow_elem (num_bf : ℕ) (g2e_ao : Arr4)
    (coeff_mat : Arr2) (p q r s : ℕ) : Option ℚ :=
  (List.range num_bf).foldlM (fun a mu =>
    (List.range num_bf).foldlM (fun a nu =>
      (List.range num_bf).foldlM (fun a rho =>
        (List.range num_bf).foldlM (fun a sigma => do
          let c1 ← coeff_mat.get p mu
          let c2 ← coeff_mat.get q nu
          let t ← g2e_ao.get mu nu rho sigma
          let c3 ← coeff_mat.get r rho
          let c4 ← coeff_mat.get s sigma
          pure (a + c1 * c2 * t * c3 * c4)) a) a) a) 0

/-- Bounds-checked execution of the whole of `transform_integrals_slow`:
iterates the four outer loops over the output indices and runs the checked
inner accumulation for each element; `some ()` means the Python call
returns normally, `none` that it raises an IndexError.  The source contains
no shape test of its own, so this bounds checking is the only way the
function can fail. -/
def transform_integrals_slow_run (num_bf : ℕ) (g2e_ao : Arr4)
    (coeff_mat : Arr2) : Option Unit :=
  (List.range num_bf).foldlM (fun _ p =>
    (List.range num_bf).foldlM (fun _ q =>
      (List.range num_bf).foldlM (fun _ r =>
        (List.range num_bf).foldlM (fun _ s =>
          (transform_integrals_slow_elem num_bf g2e_ao coeff_mat p q r s).map
            (fun _ => ())) ()) ()) ()) ()

end Slow

/-- Modelled from the spec: the defining AO→MO contraction
`g2e_mo[p,q,r,s] = Σ_{μνρσ} C[μ,p] C[ν,q] C[ρ,r] C[σ,s] g2e_ao[μ,ν,ρ,σ]`,
the correctness contract the spec states for every transform variant.
Written from the spec's words, for comparison with the source embeddings. -/
def specContract (num_bf : ℕ) (g2e_ao : T4) (C : M2) : T4 :=
  fun p q r s =>
    ∑ mu in Finset.range num_bf, ∑ nu in Finset.range num_bf,
      ∑ rho in Finset.range num_bf, ∑ sigma in Finset.range num_bf,
        C mu p * C nu q * C rho r * C sigma s * g2e_ao mu nu rho sigma

/-- Modelled from the spec: the first factored stage
`g1[μ,ν,ρ,s] = Σ_σ g2e_ao[μ,ν,ρ,σ] · C[σ,s]` (contraction over σ), as the
spec words it.  For comparison with `Slow.transform_integrals_g1`. -/
def specG1 (num_bf : ℕ) (g2e_ao : T4) (C : M2) : T4 :=
  fun mu nu rho s =>
    ∑ sigma in Finset.range num_bf, g2e_ao mu nu rho sigma * C sigma s

/-- Modelled from the spec: the MP2 energy as the mathematical double-block
sum `E = Σ_{i,j∈occ} Σ_{a,b∈virt} g2e_mo[i,a,j,b]·(2·g2e_mo[i,a,j,b] −
g2e_mo[i,b,j,a]) / (ε_i + ε_j − ε_a − ε_b)` with occ = [0,nocc),
virt = [nocc,N), each term contributed exactly once. -/
def specMP2Sum (num_bf nocc : ℤ) (g2e_mo : ℤ → ℤ → ℤ → ℤ → ℚ)
    (orb_e : ℤ → ℚ) : ℚ :=
  ∑ i in Finset.Ico 0 nocc, ∑ j in Finset.Ico 0 nocc,
    ∑ a in Finset.Ico nocc num_bf, ∑ b in Finset.Ico nocc num_bf,
      g2e_mo i a j b * (2 * g2e_mo i a j b - g2e_mo i b j a) /
        (orb_e i + orb_e j - orb_e a - orb_e b)

/-- Concrete AO tensor concentrated at the single entry (0,0,0,0). -/
def aoDelta : T4 := fun mu nu rho sigma =>
  if mu = 0 ∧ nu = 0 ∧ rho = 0 ∧ sigma = 0 then 1 else 0

/-- Concrete coefficient matrix with the single nonzero entry C[0,1] = 1. -/
def cShift : M2 := fun i j => if i = 0 ∧ j = 1 then 1 else 0

/-- Concrete AO tensor depending only on its last index: 1 when σ = 1. -/
def aoLast : T4 := fun _ _ _ sigma => if sigma = 1 then 1 else 0

/-- Concrete coefficient matrix with the single nonzero entry C[1,0] = 1. -/
def cRow1 : M2 := fun i j => if i = 1 ∧ j = 0 then 1 else 0

/-- Identity coefficient matrix. -/
def idMat : M2 := fun i j => if i = j then 1 else 0

/-- All-ones rank-4 tensor. -/
def onesT4 : T4 := fun _ _ _ _ => 1

/-- All-zeros rank-4 tensor. -/
def zeroT4 : T4 := fun _ _ _ _ => 0

/-- All-fives rank-4 tensor. -/
def fiveT4 : T4 := fun _ _ _ _ => 5

/-- All-ones rank-4 tensor with integer indices, for `compute_mp2_energy`. -/
def onesZ4 : ℤ → ℤ → ℤ → ℤ → ℚ := fun _ _ _ _ => 1

/-- Orbital energies 0, 1, 1, … : occupied orbital at 0, virtuals at 1. -/
def orbStep : ℤ → ℚ := fun a => if a = 0 then 0 else 1

/-- Near-degenerate orbital energies: the occupied orbital at 0 and every
virtual at -1/4000000, so each denominator is the near-zero 1/2000000. -/
def orbNearDeg : ℤ → ℚ := fun a => if a = 0 then 0 else -(1 / 4000000)

/-- Summing a mapped list over `List.range` is summing over `Finset.range`. -/
theorem list_range_map_sum (f : ℕ → ℚ) (n : ℕ) :
    ((List.range n).map f).sum = ∑ k in Finset.range n, f k := by
  induction n with
  | zero => simp
  | succ m ih =>
    rw [List.range_succ, List.map_append, List.sum_append,
      Finset.sum_range_succ, ih]
    simp

/-- Summing a function over `pyRange a b` is summing over `Finset.Ico a b`. -/
theorem pyRange_map_sum (f : ℤ → ℚ) (a b : ℤ) :
    ((pyRange a b).map f).sum = ∑ i in Finset.Ico a b, f i := by
  rw [Int.Ico_eq_finset_map, Finset.sum_map, pyRange, List.map_map,
    list_range_map_sum]
  simp

/-- A left fold that only accumulates adds up the mapped list. -/
theorem foldl_add_eq (l : List ℤ) (step : ℚ → ℤ → ℚ) (h : ℤ → ℚ)
    (hs : ∀ E x, step E x = E + h x) :
    ∀ c : ℚ, l.foldl step c = c + (l.map h).sum := by
  induction l with
  | nil => simp
  | cons x xs ih =>
    intro c
    rw [List.foldl_cons, hs, ih, List.map_cons, List.sum_cons, add_assoc]

/-- The four nested accumulation loops of `compute_mp2_energy` sum every term
of the occupied×occupied×virtual×virtual block exactly once. -/
theorem quad_foldl_eq_sum (t : ℤ → ℤ → ℤ → ℤ → ℚ) (la lb : List ℤ)
    (sa sb : Finset ℤ)
    (ha : ∀ f : ℤ → ℚ, (la.map f).sum = ∑ i in sa, f i)
    (hb : ∀ f : ℤ → ℚ, (lb.map f).sum = ∑ i in sb, f i) :
    la.foldl (fun E i =>
      la.foldl (fun E j =>
        lb.foldl (fun E a =>
          lb.foldl (fun E b => E + t i j a b) E) E) E) 0 =
      ∑ i in sa, ∑ j in sa, ∑ a in sb, ∑ b in sb, t i j a b := by
  have L4 : ∀ (i j a : ℤ) (E : ℚ),
      lb.foldl (fun E b => E + t i j a b) E = E + ∑ b in sb, t i j a b := by
    intro i j a E
    rw [foldl_add_eq lb _ (fun b => t i j a b) (fun _ _ => rfl), hb]
  have L3 : ∀ (i j : ℤ) (E : ℚ),
      lb.foldl (fun E a => lb.foldl (fun E b => E + t i j a b) E) E =
        E + ∑ a in sb, ∑ b in sb, t i j a b := by
    intro i j E
    rw [foldl_add_eq lb _ (fun a => ∑ b in sb, t i j a b)
      (fun E a => L4 i j a E), hb]
  have L2 : ∀ (i : ℤ) (E : ℚ),
      la.foldl (fun E j =>
        lb.foldl (fun E a => lb.foldl (fun E b => E + t i j a b) E) E) E =
        E + ∑ j in sa, ∑ a in sb, ∑ b in sb, t i j a b := by
    intro i E
    rw [foldl_add_eq la _ (fun j => ∑ a in sb, ∑ b in sb, t i j a b)
      (fun E j => L3 i j E), ha]
  rw [foldl_add_eq la _
    (fun i => ∑ j in sa, ∑ a in sb, ∑ b in sb, t i j a b)
    (fun E i => L2 i E), ha, zero_add]

/-- The loop embedding of `compute_mp2_energy` equals the mathematical
double-block sum of the spec, for every argument tuple whatsoever. -/
theorem compute_mp2_energy_eq_specMP2Sum (num_bf nocc : ℤ)
    (g2e_mo : ℤ → ℤ → ℤ → ℤ → ℚ) (orb_e : ℤ → ℚ) (ehf : ℚ) :
    compute_mp2_energy num_bf nocc g2e_mo orb_e ehf =
      specMP2Sum num_bf nocc g2e_mo orb_e := by
  unfold compute_mp2_energy specMP2Sum
  exact quad_foldl_eq_sum
    (fun i j a b =>
      g2e_mo i a j b * (2 * g2e_mo i a j b - g2e_mo i b j a) /
        (orb_e i + orb_e j - orb_e a - orb_e b))
    (pyRange 0 nocc) (pyRange nocc num_bf) (Finset.Ico 0 nocc)
    (Finset.Ico nocc num_bf)
    (fun f => pyRange_map_sum f 0 nocc)
    (fun f => pyRange_map_sum f nocc num_bf)

/-- C1: the claim states that every transform strategy satisfies the defining
contraction `g2e_mo[p,q,r,s] = Σ_{μνρσ} C[μ,p] C[ν,q] C[ρ,r] C[σ,s]
g2e_ao[μ,ν,ρ,σ]`.  It is false: at a concrete 2×2×2×2 input the naive loop
strategy returns 0 at (1,1,1,1) where the defining contraction is 1, because
the source multiplies `coeff_mat[p,mu]` (the transposed convention) instead
of `coeff_mat[mu,p]`. -/
theorem transform_integrals_slow_breaks_defining_contraction :
    Slow.transform_integrals_slow 2 aoDelta cShift 1 1 1 1 = 0 ∧
    specContract 2 aoDelta cShift 1 1 1 1 = 1 := by
  constructor
  · norm_num [Slow.transform_integrals_slow, aoDelta, cShift, List.range_succ]
  · norm_num [specContract, aoDelta, cShift, Finset.sum_range_succ]

/-- C2: the claim states the naive, factored and einsum strategies agree on
every matching input with N ≤ 6.  It is false: at a concrete 2×2×2×2 input
(with the module-global tensor equal to the argument, the reading most
favourable to the code) the fast-file einsum strategy returns 1 at (0,0,0,1)
while the naive loop, the factored strategy and the slow-file einsum all
return 0 there. -/
theorem transform_strategies_disagree :
    Fast.transform_integrals_einsum 2 aoDelta aoDelta cShift 0 0 0 1 = 1 ∧
    Slow.transform_integrals_einsum 2 aoDelta aoDelta cShift 0 0 0 1 = 0 ∧
    Slow.transform_integrals_slow 2 aoDelta cShift 0 0 0 1 = 0 ∧
    Slow.transform_integrals 2 aoDelta cShift 0 0 0 1 = 0 := by
  refine ⟨?_, ?_, ?_, ?_⟩
  · norm_num [Fast.transform_integrals_einsum, aoDelta, cShift,
      Finset.sum_range_succ]
  · norm_num [Slow.transform_integrals_einsum, aoDelta, cShift,
      Finset.sum_range_succ]
  · norm_num [Slow.transform_integrals_slow, aoDelta, cShift, List.range_succ]
  · norm_num [Slow.transform_integrals, Slow.transform_integrals_g3,
      Slow.transform_integrals_g2, Slow.transform_integrals_g1, aoDelta,
      cShift, List.range_succ]

/-- C3: the claim states that the first factored stage satisfies
`g1[μ,ν,ρ,s] = Σ_σ g2e_ao[μ,ν,ρ,σ]·C[σ,s]`.  It is false: the source line
multiplies `coeff_mat[rho, s]` instead of `coeff_mat[sigma, s]`, so at a
concrete 2×2×2×2 input the code's first stage is 0 at (0,0,0,0) where the
spec's contraction over σ is 1. -/
theorem transform_integrals_first_stage_wrong_axis :
    Slow.transform_integrals_g1 2 aoLast cRow1 0 0 0 0 = 0 ∧
    specG1 2 aoLast cRow1 0 0 0 0 = 1 := by
  constructor
  · norm_num [Slow.transform_integrals_g1, aoLast, cRow1, List.range_succ]
  · norm_num [specG1, aoLast, cRow1, Finset.sum_range_succ]

/-- C4: the claim states that `transform_integrals_einsum` is a pure function
of its two arguments `(ge2_ao, coeff_mat)`.  It is false: the body contracts
the module-level global `g2e_ao`, never its parameter, so two calls with
identical arguments but different global state return different tensors. -/
theorem transform_integrals_einsum_reads_global :
    Fast.transform_integrals_einsum 1 zeroT4 fiveT4 idMat 0 0 0 0 = 0 ∧
    Fast.transform_integrals_einsum 1 onesT4 fiveT4 idMat 0 0 0 0 = 1 := by
  constructor
  · norm_num [Fast.transform_integrals_einsum, zeroT4, fiveT4, idMat,
      Finset.sum_range_succ]
  · norm_num [Fast.transform_integrals_einsum, onesT4, fiveT4, idMat,
      Finset.sum_range_succ]

/-- C5: for every `num_bf = N`, every `nocc` with `0 ≤ nocc ≤ N`, every MO
tensor, and every orbital-energy sequence with all occupied/virtual
denominators nonzero, `compute_mp2_energy` returns exactly the double-block
sum `Σ_{i,j∈[0,nocc)} Σ_{a,b∈[nocc,N)} g2e_mo[i,a,j,b]·(2·g2e_mo[i,a,j,b] −
g2e_mo[i,b,j,a]) / (ε_i + ε_j − ε_a − ε_b)`, each of the
`nocc²·(N−nocc)²` terms contributed exactly once. -/
theorem compute_mp2_energy_formula (num_bf nocc : ℤ)
    (g2e_mo : ℤ → ℤ → ℤ → ℤ → ℚ) (orb_e : ℤ → ℚ) (ehf : ℚ)
    (h0 : 0 ≤ nocc) (h1 : nocc ≤ num_bf)
    (hden : ∀ i ∈ Finset.Ico 0 nocc, ∀ j ∈ Finset.Ico 0 nocc,
      ∀ a ∈ Finset.Ico nocc num_bf, ∀ b ∈ Finset.Ico nocc num_bf,
        orb_e i + orb_e j - orb_e a - orb_e b ≠ 0) :
    compute_mp2_energy num_bf nocc g2e_mo orb_e ehf =
      ∑ i in Finset.Ico 0 nocc, ∑ j in Finset.Ico 0 nocc,
        ∑ a in Finset.Ico nocc num_bf, ∑ b in Finset.Ico nocc num_bf,
          g2e_mo i a j b * (2 * g2e_mo i a j b - g2e_mo i b j a) /
            (orb_e i + orb_e j - orb_e a - orb_e b) := by
  rw [compute_mp2_energy_eq_specMP2Sum]
  rfl

/-- Witness for C5 at `N = 2`, `nocc = 1`, the all-ones MO tensor and the
0/1 step orbital energies (every denominator is −2). -/
theorem compute_mp2_energy_formula_witness :
    compute_mp2_energy 2 1 onesZ4 orbStep 0 =
      ∑ i in Finset.Ico (0 : ℤ) 1, ∑ j in Finset.Ico (0 : ℤ) 1,
        ∑ a in Finset.Ico (1 : ℤ) 2, ∑ b in Finset.Ico (1 : ℤ) 2,
          onesZ4 i a j b * (2 * onesZ4 i a j b - onesZ4 i b j a) /
            (orbStep i + orbStep j - orbStep a - orbStep b) := by
  refine compute_mp2_energy_formula 2 1 onesZ4 orbStep 0 (by norm_num)
    (by norm_num) ?_
  intro i hi j hj a ha b hb
  simp only [Finset.mem_Ico] at hi hj ha hb
  obtain rfl : i = 0 := by omega
  obtain rfl : j = 0 := by omega
  obtain rfl : a = 1 := by omega
  obtain rfl : b = 1 := by omega
  norm_num [orbStep]

/-- C8: with `nocc = 0` and with `nocc = N`, `compute_mp2_energy` returns 0
(an empty sum) for every tensor, orbital-energy sequence and HF energy,
succeeding rather than raising. -/
theorem compute_mp2_energy_boundary (num_bf : ℤ)
    (g2e_mo : ℤ → ℤ → ℤ → ℤ → ℚ) (orb_e : ℤ → ℚ) (ehf : ℚ) :
    compute_mp2_energy num_bf 0 g2e_mo orb_e ehf = 0 ∧
    compute_mp2_energy num_bf num_bf g2e_mo orb_e ehf = 0 := by
  constructor <;> rw [compute_mp2_energy_eq_specMP2Sum] <;>
    simp [specMP2Sum, Finset.Ico_self]

/-- C10: for every integer `nocc` outside `[0, num_bf]` the Python loop
ranges are empty, so `compute_mp2_energy` returns 0 without error; the
result is 0 for every `g2e_mo` and `orb_e`, so no element of either is
read. -/
theorem compute_mp2_energy_out_of_range_nocc (num_bf nocc : ℤ)
    (h : nocc < 0 ∨ num_bf < nocc)
    (g2e_mo : ℤ → ℤ → ℤ → ℤ → ℚ) (orb_e : ℤ → ℚ) (ehf : ℚ) :
    compute_mp2_energy num_bf nocc g2e_mo orb_e ehf = 0 := by
  rw [compute_mp2_energy_eq_specMP2Sum]
  rcases h with h | h
  · rw [specMP2Sum, Finset.Ico_eq_empty (by omega : ¬(0 : ℤ) < nocc)]
    simp
  · rw [specMP2Sum, Finset.Ico_eq_empty (by omega : ¬nocc < num_bf)]
    simp

/-- Witness for C10 at `nocc = -1 < 0` and at `nocc = 3 > num_bf = 2`. -/
theorem compute_mp2_energy_out_of_range_nocc_witness :
    compute_mp2_energy 2 (-1) onesZ4 orbStep 0 = 0 ∧
    compute_mp2_energy 2 3 onesZ4 orbStep 0 = 0 :=
  ⟨compute_mp2_energy_out_of_range_nocc 2 (-1) (Or.inl (by norm_num))
      onesZ4 orbStep 0,
    compute_mp2_energy_out_of_range_nocc 2 3 (Or.inr (by norm_num))
      onesZ4 orbStep 0⟩

/-- C6 counterexample: the claim states that a zero or near-zero
occupied/virtual denominator is surfaced as a DegenerateOrbitalsWarning/Error
rather than a finite energy computed from near-infinite terms.  It is false:
at `N = 2`, `nocc = 1`, all-ones MO tensor and denominator 1/2000000, the
code simply returns the finite near-infinite value 2000000; no check of the
denominators exists anywhere in `compute_mp2_energy`. -/
theorem compute_mp2_energy_near_degenerate_returns_value :
    compute_mp2_energy 2 1 onesZ4 orbNearDeg 0 = 2000000 := by
  norm_num [compute_mp2_energy, onesZ4, orbNearDeg, pyRange, List.range_succ]

/-- C6 amended: `compute_mp2_energy` performs no degeneracy detection: even
when some occupied/virtual denominator is nonzero but within 1/1000000 of
zero, it surfaces no warning or error and returns the plain term-by-term
summation, near-singular terms included. -/
theorem compute_mp2_energy_no_degeneracy_check (num_bf nocc : ℤ)
    (g2e_mo : ℤ → ℤ → ℤ → ℤ → ℚ) (orb_e : ℤ → ℚ) (ehf : ℚ)
    (hdeg : ∃ i ∈ Finset.Ico (0 : ℤ) nocc, ∃ j ∈ Finset.Ico (0 : ℤ) nocc,
      ∃ a ∈ Finset.Ico nocc num_bf, ∃ b ∈ Finset.Ico nocc num_bf,
        orb_e i + orb_e j - orb_e a - orb_e b ≠ 0 ∧
        |orb_e i + orb_e j - orb_e a - orb_e b| < 1 / 1000000) :
    compute_mp2_energy num_bf nocc g2e_mo orb_e ehf =
      specMP2Sum num_bf nocc g2e_mo orb_e :=
  compute_mp2_energy_eq_specMP2Sum num_bf nocc g2e_mo orb_e ehf

/-- Witness for the amended C6: the near-degenerate concrete input with
denominator 1/2000000 on its only occupied/virtual tuple. -/
theorem compute_mp2_energy_no_degeneracy_check_witness :
    compute_mp2_energy 2 1 onesZ4 orbNearDeg 0 =
      specMP2Sum 2 1 onesZ4 orbNearDeg := by
  refine compute_mp2_energy_no_degeneracy_check 2 1 onesZ4 orbNearDeg 0 ?_
  refine ⟨0, ?_, 0, ?_, 1, ?_, 1, ?_, ?_, ?_⟩ <;>
    norm_num [Finset.mem_Ico, orbNearDeg, abs_lt]

/-- C9: the claim states that every strategy applied with the identity
coefficient matrix returns the input tensor exactly.  It is false for the
factored strategy: its first stage contracts the wrong axis, so on the
all-ones 2×2×2×2 tensor with C = I it returns 0 at (0,0,0,1) where the
input is 1. -/
theorem transform_integrals_identity_transform_fails :
    Slow.transform_integrals 2 onesT4 idMat 0 0 0 1 = 0 ∧
    onesT4 0 0 0 1 = 1 := by
  constructor
  · norm_num [Slow.transform_integrals, Slow.transform_integrals_g3,
      Slow.transform_integrals_g2, Slow.transform_integrals_g1, onesT4,
      idMat, List.range_succ]
  · norm_num [onesT4]

/-- A fold in the Option monad succeeds when every step does. -/
theorem foldlM_isSome {α β : Type} (l : List α) (f : β → α → Option β)
    (h : ∀ s a, a ∈ l → (f s a).isSome) :
    ∀ init : β, (l.foldlM f init).isSome := by
  induction l with
  | nil => intro init; simp
  | cons x xs ih =>
    intro init
    rw [List.foldlM_cons]
    obtain ⟨s, hsx⟩ :=
      Option.isSome_iff_exists.mp (h init x (List.mem_cons_self x xs))
    rw [hsx]
    simpa using ih (fun s a ha => h s a (List.mem_cons_of_mem _ ha)) s

/-- Every checked access of the inner accumulation succeeds when `num_bf` is
within both array dimensions, whatever those dimensions are. -/
theorem transform_integrals_slow_elem_isSome (num_bf : ℕ) (ao : Arr4)
    (C : Arr2) (hao : num_bf ≤ ao.dim) (hc : num_bf ≤ C.dim) (p q r s : ℕ)
    (hp : p < num_bf) (hq : q < num_bf) (hr : r < num_bf)
    (hs : s < num_bf) :
    (Slow.transform_integrals_slow_elem num_bf ao C p q r s).isSome := by
  unfold Slow.transform_integrals_slow_elem
  apply foldlM_isSome
  intro a1 mu hmu
  apply foldlM_isSome
  intro a2 nu hnu
  apply foldlM_isSome
  intro a3 rho hrho
  apply foldlM_isSome
  intro a4 sigma hsigma
  rw [List.mem_range] at hmu hnu hrho hsigma
  have g1 : C.get p mu = some (C.val p mu) := by
    rw [Arr2.get, if_pos]
    exact ⟨lt_of_lt_of_le hp hc, lt_of_lt_of_le hmu hc⟩
  have g2 : C.get q nu = some (C.val q nu) := by
    rw [Arr2.get, if_pos]
    exact ⟨lt_of_lt_of_le hq hc, lt_of_lt_of_le hnu hc⟩
  have g3 : ao.get mu nu rho sigma = some (ao.val mu nu rho sigma) := by
    rw [Arr4.get, if_pos]
    exact ⟨lt_of_lt_of_le hmu hao, lt_of_lt_of_le hnu hao,
      lt_of_lt_of_le hrho hao, lt_of_lt_of_le hsigma hao⟩
  have g4 : C.get r rho = some (C.val r rho) := by
    rw [Arr2.get, if_pos]
    exact ⟨lt_of_lt_of_le hr hc, lt_of_lt_of_le hrho hc⟩
  have g5 : C.get s sigma = some (C.val s sigma) := by
    rw [Arr2.get, if_pos]
    exact ⟨lt_of_lt_of_le hs hc, lt_of_lt_of_le hsigma hc⟩
  simp [g1, g2, g3, g4, g5]

/-- C7 amended: `transform_integrals_slow` performs no up-front shape
validation at all: whenever `num_bf` is at most both the AO tensor dimension
and the coefficient matrix dimension, the call completes without raising any
error, even when the two dimensions disagree; its only failure mode is an
index-bounds error hit during the contraction when `num_bf` exceeds an
array dimension. -/
theorem transform_integrals_slow_no_shape_check (num_bf : ℕ) (ao : Arr4)
    (C : Arr2) (hao : num_bf ≤ ao.dim) (hc : num_bf ≤ C.dim) :
    (Slow.transform_integrals_slow_run num_bf ao C).isSome := by
  unfold Slow.transform_integrals_slow_run
  apply foldlM_isSome
  intro u1 p hp
  apply foldlM_isSome
  intro u2 q hq
  apply foldlM_isSome
  intro u3 r hr
  apply foldlM_isSome
  intro u4 s hs
  rw [List.mem_range] at hp hq hr hs
  have := transform_integrals_slow_elem_isSome num_bf ao C hao hc p q r s
    hp hq hr hs
  obtain ⟨v, hv⟩ := Option.isSome_iff_exists.mp this
  simp [hv]

/-- Witness for the amended C7: `num_bf = 1` with a 1×1×1×1 AO tensor and a
2×2 coefficient matrix (disagreeing dimensions) completes without error. -/
theorem transform_integrals_slow_no_shape_check_witness :
    (Slow.transform_integrals_slow_run 1 ⟨1, fun _ _ _ _ => 1⟩
      ⟨2, fun _ _ => 1⟩).isSome :=
  transform_integrals_slow_no_shape_check 1 ⟨1, fun _ _ _ _ => 1⟩
    ⟨2, fun _ _ => 1⟩ (by norm_num) (by norm_num)

/-- C7 counterexample: the claim states that whenever the coefficient matrix
dimension disagrees with an axis of the AO tensor, each transform strategy
fails with a ShapeMismatch before any computation.  It is false: with a
1×1×1×1 AO tensor and a 2×2 coefficient matrix (dimensions 2 ≠ 1),
`transform_integrals_slow` runs to completion and raises nothing. -/
theorem transform_integrals_slow_accepts_mismatched_shapes :
    (⟨2, fun _ _ => 1⟩ : Arr2).dim ≠ (⟨1, fun _ _ _ _ => 1⟩ : Arr4).dim ∧
    Slow.transform_integrals_slow_run 1 ⟨1, fun _ _ _ _ => 1⟩
      ⟨2, fun _ _ => 1⟩ = some () := by
  constructor
  · norm_num
  · norm_num [Slow.transform_integrals_slow_run,
      Slow.transform_integrals_slow_elem, Arr2.get, Arr4.get,
      List.range_succ, List.foldlM_cons, List.foldlM_nil]

end MP2
